import Mathlib

set_option maxRecDepth 100000

/-!
Verification of the `extract_nhmmer_tblout` hit-filtering and
sequence-extraction pipeline (`src/main.rs`).

The program reads an nhmmer `tblout` report, keeps the hits whose e-value
passes a threshold, calls an external extraction tool (`esl-sfetch`) once per
surviving hit with a `from..to` coordinate range, rewrites the header of every
extracted FASTA sub-record and writes the records to standard output in hit
order.

Machine floats (`f32`) are modelled exactly: a finite binary32 value is a
dyadic rational `sig * 2 ^ exp` (structure `F32`), and IEEE comparison of
finite values coincides with the order of the exact rational values
(`F32.toRat`).  `roundDec n e10` is IEEE round-to-nearest, ties to even, of
the decimal `n * 10 ^ e10`; this is the rounding performed by
`f32::from_str`, which both clap's `value_parser!(f32)` (the `-v` threshold,
default string "0.00001") and the tblout e-value field parser use.  Rust's
`format!("{:e}", x)` (`LowerExp`) is modelled by `fmtLowerExp`: the shortest
decimal significand that parses back to the same `f32` value, nearest first,
ties to an even last digit, rendered as `d.ddd` followed by `e` and the
unpadded decimal exponent.  The model covers the finite binary32 range
(magnitudes in `[2^-149, 2^128)`), which contains every e-value and
threshold; infinities and NaN do not arise for this data.
-/

namespace ExtractTbl

/-- `2 ^ l` as a rational, for an integer (possibly negative) exponent. -/
def pow2 (l : ℤ) : ℚ := (2 : ℚ) ^ l

/-- Fuel-driven floor logarithm of the positive fraction `a / b`: starting
from exponent `l`, climb while `base ^ (l + 1) ≤ a / b`, comparing with
cross-multiplication so only natural-number arithmetic is used.  With a low
enough start and enough fuel the result `l` satisfies
`base ^ l ≤ a / b < base ^ (l + 1)`. -/
def climbLog (base : ℕ) : ℕ → ℕ → ℕ → ℤ → ℤ
  | 0, _, _, l => l
  | fuel + 1, a, b, l =>
    let c : Bool :=
      if 0 ≤ l + 1 then decide (base ^ (l + 1).toNat * b ≤ a)
      else decide (b ≤ base ^ (-(l + 1)).toNat * a)
    if c then climbLog base fuel a b (l + 1) else l

/-- Floor base-2 logarithm of `a / b`, valid for `2 ^ (-200) ≤ a / b < 2 ^ 320`. -/
def blog2 (a b : ℕ) : ℤ := climbLog 2 520 a b (-200)

/-- Floor base-10 logarithm of `a / b`, valid for `10 ^ (-60) ≤ a / b < 10 ^ 80`. -/
def blog10 (a b : ℕ) : ℤ := climbLog 10 140 a b (-60)

/-- A finite binary32 value, represented exactly as `sig * 2 ^ exp`.  Values
produced by `roundDec` are canonical: `|sig| < 2 ^ 24`, with `|sig| ≥ 2 ^ 23`
unless `exp = -149` (subnormals), so distinct representations denote distinct
floats. -/
structure F32 where
  sig : ℤ
  exp : ℤ
deriving DecidableEq

/-- The exact rational value of a binary32 datum. -/
def F32.toRat (x : F32) : ℚ := (x.sig : ℚ) * pow2 x.exp

/-- IEEE `<` on finite binary32 values: the order of the exact values,
computed by bringing both to the smaller exponent and comparing integer
significands. -/
def F32.blt (a b : F32) : Bool :=
  let m := min a.exp b.exp
  decide (a.sig * 2 ^ (a.exp - m).toNat < b.sig * 2 ^ (b.exp - m).toNat)

/-- Round the positive fraction `a / b` to the nearest binary32 value (ties
to even): scale into the significand range `[2^23, 2^24)` — or the subnormal
range, with the exponent clamped at `-149` — and round the scaled significand
to the nearest integer, ties to even.  A carry to `2^24` is renormalized so
the result is canonical. -/
def roundPosFrac (a b : ℕ) : F32 :=
  let l := blog2 a b
  let e := max (l - 23) (-149)
  let n : ℕ := if 0 ≤ e then a else a * 2 ^ (-e).toNat
  let d : ℕ := if 0 ≤ e then b * 2 ^ e.toNat else b
  let n0 := n / d
  let r := n % d
  let sig : ℕ :=
    if 2 * r < d then n0
    else if d < 2 * r then n0 + 1
    else if n0 % 2 = 0 then n0 else n0 + 1
  if sig = 2 ^ 24 then ⟨2 ^ 23, e + 1⟩ else ⟨(sig : ℤ), e⟩

/-- The binary32 value nearest to the decimal `n * 10 ^ e10` (round to
nearest, ties to even) — the value `f32::from_str` produces for an in-range
decimal literal with integral significand `n` and decimal exponent `e10`. -/
def roundDec (n : ℤ) (e10 : ℤ) : F32 :=
  let a : ℕ := if 0 ≤ e10 then n.natAbs * 10 ^ e10.toNat else n.natAbs
  let b : ℕ := if 0 ≤ e10 then 1 else 10 ^ (-e10).toNat
  if n = 0 then ⟨0, 0⟩
  else if n < 0 then
    let p := roundPosFrac a b
    ⟨-p.sig, p.exp⟩
  else roundPosFrac a b

/-- Drop trailing decimal zeros of a natural number (fuel-driven). -/
def stripZeros : ℕ → ℕ → ℕ
  | 0, m => m
  | fuel + 1, m => if 10 ≤ m ∧ m % 10 = 0 then stripZeros fuel (m / 10) else m

/-- Number of decimal digits of a natural number. -/
def numDigits (m : ℕ) : ℕ := (Nat.toDigits 10 m).length

/-- For the positive binary32 value `x` with exact fraction `a / b`, the best
decimal candidate with `k` significant digits: among the two `k`-digit
decimals bracketing the value, keep those that parse back (`roundDec`) to
exactly `x`, preferring the nearer one, ties to an even significand.
Returns the decimal significand `m` and the exponent `u` such that the
candidate reads `m * 10 ^ u`. -/
def digitsCand (x : F32) (a b : ℕ) (k : ℕ) : Option (ℕ × ℤ) :=
  let t := blog10 a b
  let u : ℤ := t - ((k - 1 : ℕ) : ℤ)
  let a' : ℕ := if 0 ≤ u then a else a * 10 ^ (-u).toNat
  let b' : ℕ := if 0 ≤ u then b * 10 ^ u.toNat else b
  let m0 := a' / b'
  let okLo : Bool := decide (roundDec (m0 : ℤ) u = x)
  let okHi : Bool := decide (roundDec ((m0 : ℤ) + 1) u = x)
  -- 2 * (a / b) compared with (lo + hi) = (2 * m0 + 1) * 10 ^ u decides
  -- which candidate is nearer (equality is the tie).
  let twiceVal : ℕ := if 0 ≤ u then 2 * a else 2 * a * 10 ^ (-u).toNat
  let mid : ℕ := if 0 ≤ u then (2 * m0 + 1) * 10 ^ u.toNat * b else (2 * m0 + 1) * b
  if okLo then
    if okHi then
      if twiceVal < mid then some (m0, u)
      else if mid < twiceVal then some (m0 + 1, u)
      else if m0 % 2 = 0 then some (m0, u) else some (m0 + 1, u)
    else some (m0, u)
  else if okHi then some (m0 + 1, u) else none

/-- Search the shortest significand length (at most 9 digits are needed for
binary32; fuel 12) and return the chosen significand and its unit exponent. -/
def shortestRep (x : F32) (a b : ℕ) : ℕ → ℕ → Option (ℕ × ℤ)
  | 0, _ => none
  | fuel + 1, k =>
    match digitsCand x a b k with
    | some r => some r
    | none => shortestRep x a b fuel (k + 1)

/-- Render `m * 10 ^ u` the way Rust's `LowerExp` does: significand `d.ddd`
with trailing zeros removed and no forced decimal point, then `e` and the
unpadded decimal exponent. -/
def renderExp (m : ℕ) (u : ℤ) : String :=
  let disp : ℤ := u + ((numDigits m - 1 : ℕ) : ℤ)
  let ms := stripZeros 15 m
  let ds := Nat.toDigits 10 ms
  let mant : List Char :=
    match ds with
    | [] => []
    | [c] => [c]
    | c :: rest => c :: '.' :: rest
  String.mk mant ++ "e" ++ toString disp

/-- Rust `format!("{:e}", x)` on a finite `f32` value: the shortest decimal
that round-trips, rendered in exponential form (`0` prints as `0e0`,
negatives with a leading `-`). -/
def fmtLowerExp (x : F32) : String :=
  if x.sig = 0 then "0e0"
  else
    let s := x.sig.natAbs
    let a : ℕ := if 0 ≤ x.exp then s * 2 ^ x.exp.toNat else s
    let b : ℕ := if 0 ≤ x.exp then 1 else 2 ^ (-x.exp).toNat
    let y : F32 := ⟨(s : ℤ), x.exp⟩
    let body :=
      match shortestRep y a b 12 1 with
      | some (m, u) => renderExp m u
      | none => ""
    if x.sig < 0 then "-" ++ body else body

/-! ### Data model of the pipeline (`src/main.rs`, lines 146-191)

The external `esl-sfetch` collaborator is modelled as a function from the
issued query to the outcome of `Cmd::output()`: either an `io::Error`
(the process could not be spawned — the only case `.output()?` propagates)
or a `ProcOut` carrying the exit status and the captured standard output.
The captured bytes are represented already split by the `noodles_fasta`
reader into a list of per-record parse results (`records()` yields
`io::Result<Record>`; a failed UTF-8 conversion of a record name is folded
into the same per-record error).  An empty byte stream yields the empty
record list: the FASTA reader produces no records on empty input. -/

/-- One data row of the tblout report, with the fields `main.rs` reads:
`target_name()`, `e_value()` (an `f32`), `ali_from()` and `ali_to()`
(positive alignment coordinates, printed in decimal).  The `Option` wrappers
of the accessor API are dropped: for nhmmer (DNA) tblout rows the fields are
always present, and a row on which they are absent or unparseable already
fails as a record-level parse error. -/
structure HitRecord where
  target_name : String
  e_value : F32
  ali_from : ℕ
  ali_to : ℕ

/-- The query issued to `esl-sfetch`: `-c <range> <indexed file> <target>`.
The indexed-file argument is the same for every call and is omitted. -/
structure Call where
  target_name : String
  range : String
deriving DecidableEq

/-- One FASTA record parsed from the collaborator's standard output. -/
structure FastaRec where
  name : String
  description : Option String
  sequence : String
deriving DecidableEq

/-- Result of a successfully spawned collaborator process: exit status and
parsed standard output. -/
structure ProcOut where
  status : ℤ
  stdoutRecs : List (Except Unit FastaRec)

/-- One record written to standard output. -/
structure OutputRecord where
  name : String
  description : Option String
  sequence : String
deriving DecidableEq

/-- How a run terminates abnormally (all are fatal, `main` returns `Err`):
a tblout data line failed to parse (`record?`, line 153), a collaborator
process could not be spawned (`.output()?`, lines 149/169), or the extracted
bytes failed to parse as FASTA / UTF-8 (`record?` / `from_utf8(...)?`,
lines 177-179). -/
inductive RunErr where
  | malformedRecord
  | spawnFailure
  | fastaParseFailure
deriving DecidableEq

/-- The hit filter (lines 154-159): the row is skipped exactly when
`eval > e_value_threshold`, an `f32` comparison. -/
def keepHit (eval threshold : F32) : Bool := ! F32.blt threshold eval

/-- The range query built for a hit (lines 161-168):
`format!("{}..{}", ali_from, ali_to)` against `target_name`, passed through
verbatim. -/
def mkCall (r : HitRecord) : Call :=
  { target_name := r.target_name
    range := toString r.ali_from ++ ".." ++ toString r.ali_to }

/-- The header rewrite (lines 179-184): `"{}:E{:e}"` of the original name and
the e-value when `species_id` is empty, `"{}:E{:e}:{}"` of the species id,
the e-value and the original name otherwise. -/
def rewriteName (species_id : String) (eval : F32) (append_name : String) : String :=
  if species_id = "" then append_name ++ ":E" ++ fmtLowerExp eval
  else species_id ++ ":E" ++ fmtLowerExp eval ++ ":" ++ append_name

/-- The inner loop over the FASTA records extracted for one hit
(lines 176-190): each parsed record is rewritten and written out
immediately; the first parse error aborts (records already written stay
written). -/
def emitRecords (species_id : String) (eval : F32) :
    List (Except Unit FastaRec) → List OutputRecord × Option RunErr
  | [] => ([], none)
  | .error _ :: _ => ([], some RunErr.fastaParseFailure)
  | .ok r :: rest =>
    ({ name := rewriteName species_id eval r.name
       description := r.description
       sequence := r.sequence } :: (emitRecords species_id eval rest).1,
     (emitRecords species_id eval rest).2)

/-- The per-hit loop of `main` (lines 152-191), returning the extraction
calls issued, the records written to standard output, and how the loop
terminated (`none` = ran to completion).  Writing is streaming: output
produced before a fatal error remains emitted. -/
def run (client : Call → Except Unit ProcOut) (threshold : F32)
    (species_id : String) :
    List (Except Unit HitRecord) → List Call × List OutputRecord × Option RunErr
  | [] => ([], [], none)
  | .error _ :: _ => ([], [], some RunErr.malformedRecord)
  | .ok r :: rest =>
    if keepHit r.e_value threshold then
      match client (mkCall r) with
      | .error _ => ([mkCall r], [], some RunErr.spawnFailure)
      | .ok p =>
        match (emitRecords species_id r.e_value p.stdoutRecs).2 with
        | some err =>
          ([mkCall r], (emitRecords species_id r.e_value p.stdoutRecs).1, some err)
        | none =>
          (mkCall r :: (run client threshold species_id rest).1,
           (emitRecords species_id r.e_value p.stdoutRecs).1 ++
             (run client threshold species_id rest).2.1,
           (run client threshold species_id rest).2.2)
    else run client threshold species_id rest

/-- `main` around the loop (lines 146-191): the one-time `esl-sfetch --index`
invocation (line 146-149) whose spawn failure is propagated by `?` and whose
`Output` — exit status included — is otherwise discarded (`_index_fasta`),
followed by the per-hit loop. -/
def runMain (indexResult : Except Unit ProcOut)
    (client : Call → Except Unit ProcOut) (threshold : F32)
    (species_id : String) (recs : List (Except Unit HitRecord)) :
    Except Unit (List Call × List OutputRecord × Option RunErr) :=
  match indexResult with
  | .error e => .error e
  | .ok _ => .ok (run client threshold species_id recs)

/-- The records a single surviving hit contributes to standard output, for a
client call that does not abort the run. -/
def outsOf (client : Call → Except Unit ProcOut) (species_id : String)
    (r : HitRecord) : List OutputRecord :=
  match client (mkCall r) with
  | .error _ => []
  | .ok p => (emitRecords species_id r.e_value p.stdoutRecs).1

/-- Modelled from the spec: the report-metadata lookup of the tabular hit
source (`hmm_tblout`'s `Reader::meta` / `Meta::target_file`, a component of
the system whose code is not under `src/`).  "The metadata extraction
(target file path) is read from a single designated header comment line; its
absence is only fatal if the caller needs it (i.e., no explicit
sequence-file argument was supplied)."  `resolveSequenceFile` is the
caller's view (lines 92-99 of `main.rs`): an explicit `FASTA` argument wins,
otherwise the report's recorded target file is used, and only when both are
absent does the run fail with the missing-metadata error. -/
def resolveSequenceFile (fastaArg : Option String)
    (metaTargetFile : Option String) : Except Unit String :=
  match fastaArg with
  | some f => .ok f
  | none =>
    match metaTargetFile with
    | some t => .ok t
    | none => .error ()

/-- The threshold value the program uses when `-v` is not given: clap parses
the default string "0.00001" with `f32::from_str` (lines 46-54, 79-81). -/
def defaultThreshold : F32 := roundDec 1 (-5)

/-! ### Correctness of the float comparison -/

lemma pow2_pos (l : ℤ) : 0 < pow2 l := zpow_pos (by norm_num) l

lemma pow2_split (e m : ℤ) : pow2 e = pow2 (e - m) * pow2 m := by
  rw [pow2, pow2, pow2, ← zpow_add₀ (by norm_num : (2 : ℚ) ≠ 0), sub_add_cancel]

lemma pow2_toNat_cast (d : ℤ) (h : 0 ≤ d) :
    pow2 d = ((2 ^ d.toNat : ℤ) : ℚ) := by
  conv_lhs => rw [pow2, ← Int.toNat_of_nonneg h, zpow_natCast]
  push_cast
  ring

/-- The integer comparison in `F32.blt` decides the order of the exact
rational values. -/
lemma F32.toRat_lt_iff (a b : F32) :
    a.toRat < b.toRat ↔
      a.sig * 2 ^ (a.exp - min a.exp b.exp).toNat <
        b.sig * 2 ^ (b.exp - min a.exp b.exp).toNat := by
  have ha : (0 : ℤ) ≤ a.exp - min a.exp b.exp :=
    sub_nonneg.mpr (min_le_left _ _)
  have hb : (0 : ℤ) ≤ b.exp - min a.exp b.exp :=
    sub_nonneg.mpr (min_le_right _ _)
  rw [F32.toRat, F32.toRat, pow2_split a.exp (min a.exp b.exp),
    pow2_split b.exp (min a.exp b.exp), ← mul_assoc, ← mul_assoc,
    mul_lt_mul_right (pow2_pos _), pow2_toNat_cast _ ha, pow2_toNat_cast _ hb,
    ← Int.cast_mul, ← Int.cast_mul, Int.cast_lt]

lemma F32.blt_eq_true_iff (a b : F32) :
    F32.blt a b = true ↔ a.toRat < b.toRat := by
  rw [F32.blt, F32.toRat_lt_iff]
  simp

lemma keepHit_iff (e t : F32) : keepHit e t = true ↔ e.toRat ≤ t.toRat := by
  have h := F32.blt_eq_true_iff t e
  rw [keepHit, ← not_lt, ← h]
  cases F32.blt t e <;> simp

/-! ### Claim theorems -/

/-- C1: a hit is kept by the filter if and only if its e-value is less than
or equal to the threshold (as the values the `f32` data denote); in
particular a hit whose e-value exactly equals the threshold is kept. -/
theorem hit_filter_keeps_iff_le (e t : F32) :
    (keepHit e t = true ↔ F32.toRat e ≤ F32.toRat t) ∧ keepHit t t = true :=
  ⟨keepHit_iff e t, (keepHit_iff t t).mpr le_rfl⟩

/-- C2: for a hit that survives the filter, the single query issued to the
extraction client pairs the hit's `target_name` with exactly
`"{ali_from}..{ali_to}"` — no validation, clamping or reordering, so a
reverse-strand pair `ali_from > ali_to` is passed through in that order. -/
theorem range_query_verbatim (client : Call → Except Unit ProcOut)
    (threshold : F32) (species_id : String) (r : HitRecord)
    (h : keepHit r.e_value threshold = true) :
    (run client threshold species_id [Except.ok r]).1 =
      [{ target_name := r.target_name
         range := toString r.ali_from ++ ".." ++ toString r.ali_to }] := by
  rcases hc : client (mkCall r) with e | p
  · simp [run, h, hc]
    simp [mkCall]
  · rcases he : (emitRecords species_id r.e_value p.stdoutRecs).2 with _ | err <;>
      · simp [run, h, hc, he]
        simp [mkCall]

theorem range_query_verbatim_witness :
    keepHit (roundDec 1 (-6)) defaultThreshold = true ∧
    (run (fun _ => Except.ok ⟨0, []⟩) defaultThreshold ""
        [Except.ok ⟨"chr1", roundDec 1 (-6), 500, 100⟩]).1 =
      [{ target_name := "chr1", range := "500..100" }] :=
  ⟨by decide,
   (range_query_verbatim (fun _ => Except.ok ⟨0, []⟩) defaultThreshold ""
       ⟨"chr1", roundDec 1 (-6), 500, 100⟩ (by decide)).trans (by decide)⟩

/-- C3: every extracted sub-record is emitted under the rewritten identifier
`"{original_name}:E{e-value in scientific form}"` when the species id is
empty and `"{species_id}:E{e-value}:{original_name}"` otherwise, where the
scientific form of the `f32` nearest `1e-7` renders as `"1e-7"`; with an
empty species id, name `"chr1_hit3"` and e-value `1e-7` the identifier is
`"chr1_hit3:E1e-7"`. -/
theorem header_rewrite_scheme (species_id : String) (eval : F32) (f : FastaRec) :
    (emitRecords species_id eval [Except.ok f]).1 =
      [{ name := if species_id = "" then f.name ++ ":E" ++ fmtLowerExp eval
                 else species_id ++ ":E" ++ fmtLowerExp eval ++ ":" ++ f.name
         description := f.description
         sequence := f.sequence }] ∧
    fmtLowerExp (roundDec 1 (-7)) = "1e-7" ∧
    rewriteName "" (roundDec 1 (-7)) "chr1_hit3" = "chr1_hit3:E1e-7" :=
  ⟨by simp [emitRecords, rewriteName], by decide, by decide⟩

/-- C9: with the tabular hit source's metadata lookup modelled from the
spec, the absence of the report's target-file header metadata is fatal
exactly when no explicit sequence-file argument was supplied; an explicit
path makes a metadata-less report resolve without error. -/
theorem missing_metadata_fatal_iff (fastaArg metaTargetFile : Option String) :
    resolveSequenceFile fastaArg metaTargetFile = Except.error () ↔
      fastaArg = none ∧ metaTargetFile = none := by
  cases fastaArg <;> cases metaTargetFile <;> simp [resolveSequenceFile]

/-- A run over well-formed records that terminates normally is fully
characterized: the calls are the filtered hits' queries in input order, and
the output is the in-order concatenation of each filtered hit's records. -/
lemma run_success_char (client : Call → Except Unit ProcOut) (threshold : F32)
    (species_id : String) (recs : List HitRecord)
    (h : (run client threshold species_id (recs.map Except.ok)).2.2 = none) :
    run client threshold species_id (recs.map Except.ok) =
      ((recs.filter fun r => keepHit r.e_value threshold).map mkCall,
       (recs.filter fun r => keepHit r.e_value threshold).flatMap
         (outsOf client species_id),
       none) := by
  induction recs with
  | nil => simp [run]
  | cons r rest ih =>
    by_cases hk : keepHit r.e_value threshold
    · rcases hc : client (mkCall r) with e | p
      · exfalso
        simp [run, hk, hc] at h
      · rcases he : (emitRecords species_id r.e_value p.stdoutRecs).2 with _ | err
        · have h' :
              (run client threshold species_id (rest.map Except.ok)).2.2 = none := by
            simpa [run, hk, hc, he] using h
          simp [run, hk, hc, he, ih h', List.filter_cons, outsOf]
        · exfalso
          simp [run, hk, hc, he] at h
    · have h' :
          (run client threshold species_id (rest.map Except.ok)).2.2 = none := by
        simpa [run, hk] using h
      simp [run, hk, ih h', List.filter_cons]

/-- C4: in a run that completes, the emitted records are exactly the
in-order concatenation, over the filtered hits taken as a sublist of the
input hit sequence, of each hit's extracted records — no sorting,
reordering or deduplication, each output group owned by one filtered
hit. -/
theorem output_order_stable (client : Call → Except Unit ProcOut)
    (threshold : F32) (species_id : String) (recs : List HitRecord)
    (h : (run client threshold species_id (recs.map Except.ok)).2.2 = none) :
    (run client threshold species_id (recs.map Except.ok)).2.1 =
      (recs.filter fun r => keepHit r.e_value threshold).flatMap
        (outsOf client species_id) ∧
    List.Sublist (recs.filter fun r => keepHit r.e_value threshold) recs :=
  ⟨by rw [run_success_char client threshold species_id recs h],
   List.filter_sublist recs⟩

theorem output_order_stable_witness :
    (run (fun _ => Except.ok ⟨0, [Except.ok ⟨"s1", none, "ACGT"⟩]⟩)
        defaultThreshold ""
        (List.map Except.ok
          ([⟨"a", roundDec 1 (-3), 1, 2⟩, ⟨"b", roundDec 1 (-6), 3, 4⟩] :
            List HitRecord))).2.2 = none ∧
    (run (fun _ => Except.ok ⟨0, [Except.ok ⟨"s1", none, "ACGT"⟩]⟩)
        defaultThreshold ""
        (List.map Except.ok
          ([⟨"a", roundDec 1 (-3), 1, 2⟩, ⟨"b", roundDec 1 (-6), 3, 4⟩] :
            List HitRecord))).2.1 =
      [⟨"s1:E1e-6", none, "ACGT"⟩] :=
  ⟨by decide,
   ((output_order_stable (fun _ => Except.ok ⟨0, [Except.ok ⟨"s1", none, "ACGT"⟩]⟩)
       defaultThreshold ""
       [⟨"a", roundDec 1 (-3), 1, 2⟩, ⟨"b", roundDec 1 (-6), 3, 4⟩]
       (by decide)).1).trans (by decide)⟩

/-- C5: in a run that completes, exactly one extraction call — the hit's
`"{ali_from}..{ali_to}"` query against its `target_name` — is issued per
hit with e-value passing the threshold and none for the others, in input
order; with three hits at e-values `1e-3`, `1e-6`, `1e-9` and the default
threshold `1e-5`, exactly the second and third hits are queried, in that
order. -/
theorem extraction_calls_exact (client : Call → Except Unit ProcOut)
    (threshold : F32) (species_id : String) (recs : List HitRecord)
    (h : (run client threshold species_id (recs.map Except.ok)).2.2 = none) :
    (run client threshold species_id (recs.map Except.ok)).1 =
      (recs.filter fun r => keepHit r.e_value threshold).map mkCall := by
  rw [run_success_char client threshold species_id recs h]

theorem extraction_calls_exact_witness :
    (run (fun _ => Except.ok ⟨0, []⟩) defaultThreshold ""
        (List.map Except.ok
          ([⟨"h1", roundDec 1 (-3), 1, 2⟩, ⟨"h2", roundDec 1 (-6), 30, 40⟩,
            ⟨"h3", roundDec 1 (-9), 500, 100⟩] : List HitRecord))).2.2 = none ∧
    (run (fun _ => Except.ok ⟨0, []⟩) defaultThreshold ""
        (List.map Except.ok
          ([⟨"h1", roundDec 1 (-3), 1, 2⟩, ⟨"h2", roundDec 1 (-6), 30, 40⟩,
            ⟨"h3", roundDec 1 (-9), 500, 100⟩] : List HitRecord))).1 =
      [{ target_name := "h2", range := "30..40" },
       { target_name := "h3", range := "500..100" }] :=
  ⟨by decide,
   (extraction_calls_exact (fun _ => Except.ok ⟨0, []⟩) defaultThreshold ""
       [⟨"h1", roundDec 1 (-3), 1, 2⟩, ⟨"h2", roundDec 1 (-6), 30, 40⟩,
        ⟨"h3", roundDec 1 (-9), 500, 100⟩] (by decide)).trans (by decide)⟩

/-- C6: a report line that fails to parse aborts the run with the
malformed-record error the moment it is reached: whatever a prefix of
well-behaved records produced stays emitted, but no later hit produces any
call or output, and the run's status is the fatal error. -/
theorem malformed_record_aborts (client : Call → Except Unit ProcOut)
    (threshold : F32) (species_id : String)
    (xs rest : List (Except Unit HitRecord))
    (h : (run client threshold species_id xs).2.2 = none) :
    run client threshold species_id (xs ++ Except.error () :: rest) =
      ((run client threshold species_id xs).1,
       (run client threshold species_id xs).2.1,
       some RunErr.malformedRecord) := by
  induction xs with
  | nil => simp [run]
  | cons x xs ih =>
    match x with
    | .error e =>
      exfalso
      simp [run] at h
    | .ok r =>
      by_cases hk : keepHit r.e_value threshold
      · rcases hc : client (mkCall r) with e | p
        · exfalso
          simp [run, hk, hc] at h
        · rcases he : (emitRecords species_id r.e_value p.stdoutRecs).2 with _ | err
          · have h' : (run client threshold species_id xs).2.2 = none := by
              simpa [run, hk, hc, he] using h
            simp [run, hk, hc, he, ih h']
          · exfalso
            simp [run, hk, hc, he] at h
      · have h' : (run client threshold species_id xs).2.2 = none := by
          simpa [run, hk] using h
        simpa [run, hk] using ih h'

theorem malformed_record_aborts_witness :
    (run (fun _ => Except.ok ⟨0, [Except.ok ⟨"s1", none, "ACGT"⟩]⟩)
        defaultThreshold "" [Except.ok ⟨"a", roundDec 1 (-6), 1, 2⟩]).2.2 =
      none ∧
    run (fun _ => Except.ok ⟨0, [Except.ok ⟨"s1", none, "ACGT"⟩]⟩)
        defaultThreshold ""
        ([Except.ok ⟨"a", roundDec 1 (-6), 1, 2⟩] ++ Except.error () ::
          [Except.ok ⟨"b", roundDec 1 (-9), 3, 4⟩]) =
      ([{ target_name := "a", range := "1..2" }],
       [⟨"s1:E1e-6", none, "ACGT"⟩], some RunErr.malformedRecord) :=
  ⟨by decide,
   (malformed_record_aborts (fun _ => Except.ok ⟨0, [Except.ok ⟨"s1", none, "ACGT"⟩]⟩)
       defaultThreshold "" [Except.ok ⟨"a", roundDec 1 (-6), 1, 2⟩]
       [Except.ok ⟨"b", roundDec 1 (-9), 3, 4⟩] (by decide)).trans (by decide)⟩

/-- The run never looks at a collaborator's exit status: rewriting every
reported status (here through an arbitrary function) leaves the calls, the
output and the termination of the loop unchanged. -/
lemma run_status_independent (client client' : Call → Except Unit ProcOut)
    (f : ℤ → ℤ) (threshold : F32) (species_id : String)
    (recs : List (Except Unit HitRecord))
    (hcl : ∀ c, client' c = (client c).map fun p => ⟨f p.status, p.stdoutRecs⟩) :
    run client' threshold species_id recs =
      run client threshold species_id recs := by
  induction recs with
  | nil => rfl
  | cons x rest ih =>
    match x with
    | .error e => rfl
    | .ok r =>
      by_cases hk : keepHit r.e_value threshold
      · rcases hc : client (mkCall r) with e | p
        · have hc' : client' (mkCall r) = Except.error e := by
            rw [hcl, hc]
            rfl
          simp [run, hk, hc, hc']
        · have hc' : client' (mkCall r) =
              Except.ok ⟨f p.status, p.stdoutRecs⟩ := by
            rw [hcl, hc]
            rfl
          simp [run, hk, hc, hc', ih]
      · simp [run, hk, ih]

/-- A hit used by the concrete scenarios below. -/
def demoHit : HitRecord := ⟨"chr1", roundDec 1 (-6), 11, 20⟩

/-- An extraction collaborator that exits with status 1 (non-zero) while
still producing one FASTA record on its standard output. -/
def nonzeroExitClient : Call → Except Unit ProcOut :=
  fun _ => Except.ok ⟨1, [Except.ok ⟨"chr1", none, "ACGT"⟩]⟩

/-- C7 counterexample: the extraction collaborator exits with non-zero
status 1, yet the run does not abort — the hit's record is emitted and the
loop terminates normally — because `main` never inspects
`Output::status`. -/
theorem nonzero_exit_not_fatal :
    Except.map ProcOut.status (nonzeroExitClient (mkCall demoHit)) =
      Except.ok 1 ∧
    run nonzeroExitClient defaultThreshold "" [Except.ok demoHit] =
      ([{ target_name := "chr1", range := "11..20" }],
       [⟨"chr1:E1e-6", none, "ACGT"⟩], none) :=
  ⟨rfl, by decide⟩

/-- C7 (amended): a collaborator that cannot be spawned is fatal — for the
indexing step `main` returns the error before the loop, and for the
extraction step the loop stops with the spawn failure, the hit unprocessed —
but the collaborators' exit statuses are never inspected, so a non-zero
exit alone does not abort the run. -/
theorem spawn_failure_fatal_status_ignored
    (client : Call → Except Unit ProcOut) (threshold : F32)
    (species_id : String) (r : HitRecord)
    (rest recs : List (Except Unit HitRecord)) (f : ℤ → ℤ)
    (h1 : keepHit r.e_value threshold = true)
    (h2 : client (mkCall r) = Except.error ()) :
    runMain (Except.error ()) client threshold species_id recs =
      Except.error () ∧
    run client threshold species_id (Except.ok r :: rest) =
      ([mkCall r], [], some RunErr.spawnFailure) ∧
    run (fun c => (client c).map fun p => ⟨f p.status, p.stdoutRecs⟩)
        threshold species_id recs =
      run client threshold species_id recs :=
  ⟨rfl, by simp [run, h1, h2],
   run_status_independent client _ f threshold species_id recs fun c => rfl⟩

theorem spawn_failure_fatal_status_ignored_witness :
    keepHit demoHit.e_value defaultThreshold = true ∧
    (fun _ : Call => (Except.error () : Except Unit ProcOut)) (mkCall demoHit) =
      Except.error () ∧
    (runMain (Except.error ()) (fun _ => Except.error ()) defaultThreshold ""
        [Except.ok demoHit] = Except.error () ∧
     run (fun _ => Except.error ()) defaultThreshold ""
        (Except.ok demoHit :: []) =
       ([mkCall demoHit], [], some RunErr.spawnFailure) ∧
     run (fun c =>
          ((fun _ : Call => (Except.error () : Except Unit ProcOut)) c).map
            fun p => ⟨(fun s => s) p.status, p.stdoutRecs⟩)
        defaultThreshold "" [Except.ok demoHit] =
       run (fun _ => Except.error ()) defaultThreshold ""
        [Except.ok demoHit]) :=
  ⟨by decide, rfl,
   spawn_failure_fatal_status_ignored (fun _ => Except.error ())
     defaultThreshold "" demoHit [] [Except.ok demoHit] (fun s => s)
     (by decide) rfl⟩

/-- C8: a surviving hit whose extraction call succeeds with empty standard
output — the FASTA reader yields no records on zero bytes — contributes no
output record, and the run continues with the remaining hits exactly as it
would have without this hit (beyond its one extraction call). -/
theorem empty_extraction_no_records (client : Call → Except Unit ProcOut)
    (threshold : F32) (species_id : String) (r : HitRecord)
    (rest : List (Except Unit HitRecord)) (st : ℤ)
    (h1 : keepHit r.e_value threshold = true)
    (h2 : client (mkCall r) = Except.ok ⟨st, []⟩) :
    run client threshold species_id (Except.ok r :: rest) =
      (mkCall r :: (run client threshold species_id rest).1,
       (run client threshold species_id rest).2.1,
       (run client threshold species_id rest).2.2) := by
  simp [run, h1, h2, emitRecords]

theorem empty_extraction_no_records_witness :
    keepHit demoHit.e_value defaultThreshold = true ∧
    (fun _ : Call => (Except.ok ⟨0, []⟩ : Except Unit ProcOut)) (mkCall demoHit) =
      Except.ok ⟨0, []⟩ ∧
    run (fun _ => Except.ok ⟨0, []⟩) defaultThreshold ""
        (Except.ok demoHit :: [Except.ok ⟨"chr2", roundDec 3 (-8), 5, 9⟩]) =
      ([{ target_name := "chr1", range := "11..20" },
        { target_name := "chr2", range := "5..9" }], [], none) :=
  ⟨by decide, rfl,
   (empty_extraction_no_records (fun _ => Except.ok ⟨0, []⟩) defaultThreshold
       "" demoHit [Except.ok ⟨"chr2", roundDec 3 (-8), 5, 9⟩] 0 (by decide)
       rfl).trans (by decide)⟩

/-- The exact rational value of the decimal `n * 10 ^ e10`, for comparing a
decimal input with what its `f32` image is compared against. -/
def decToRat (n e10 : ℤ) : ℚ := (n : ℚ) * (10 : ℚ) ^ e10

/-- C10: the threshold (default decimal "0.00001") and every e-value are
carried as `f32` and compared as `f32`: a hit is kept exactly when its
value is at most the threshold's, and a decimal e-value exceeding the
decimal threshold by less than `f32` precision — here `1.00000001e-5`
against `1e-5` — rounds to the very same `f32` as the threshold, compares
equal, and the hit is kept. -/
theorem threshold_compared_in_f32 :
    (∀ e t : F32, keepHit e t = true ↔ F32.toRat e ≤ F32.toRat t) ∧
    defaultThreshold = roundDec 1 (-5) ∧
    decToRat 1 (-5) < decToRat 100000001 (-13) ∧
    roundDec 100000001 (-13) = roundDec 1 (-5) ∧
    keepHit (roundDec 100000001 (-13)) defaultThreshold = true := by
  refine ⟨keepHit_iff, rfl, ?_, by decide, by decide⟩
  norm_num [decToRat]

end ExtractTbl
